import Mathlib

/-!
Verification of the AppJS route resolution and dispatch engine
(`src/core/app.ts`, class `App`): a shallow embedding of the route
compiler (`App.init`) and the route dispatcher (`App.execute`), with the
external collaborators (module registry, parameter-list filter, argument
string parser) modelled from the interfaces the engine consumes.
-/

namespace AppJS

/-- A JavaScript primitive value as it occurs in argument bags. -/
inductive Value where
  | str (s : String)
  | num (n : Int)
  | bool (b : Bool)
deriving DecidableEq, Repr

/-- A JavaScript dictionary in key insertion order. -/
abbrev AList := List (String × Value)

/-- First-match lookup, as JS property access on the dictionaries built here. -/
def lookupKey {α : Type} : List (String × α) → String → Option α
  | [], _ => none
  | (k0, v0) :: t, k => if k0 == k then some v0 else lookupKey t k

/-- JS dictionary assignment `obj[k] = v`: overwrite in place or append. -/
def setKey {α : Type} : List (String × α) → String → α → List (String × α)
  | [], k, v => [(k, v)]
  | (k0, v0) :: t, k, v => if k0 == k then (k0, v) :: t else (k0, v0) :: setKey t k v

/-- `Object.assign(target, source)`: copy each source entry into target in order. -/
def assign {α : Type} (t s : List (String × α)) : List (String × α) :=
  s.foldl (fun acc kv => setKey acc kv.1 kv.2) t

/-- Model of JS `String.prototype.toLowerCase` restricted to ASCII letters. -/
def charLower (c : Char) : Char :=
  if 65 ≤ c.toNat ∧ c.toNat ≤ 90 then Char.ofNat (c.toNat + 32) else c

/-- Lowercasing of strings, the `toLowerCase` the source applies throughout. -/
def strLower (s : String) : String := String.mk (s.data.map charLower)

/-- Worker for `splitSpace`: the pending characters of the current field
are carried reversed. -/
def splitSpaceAux : List Char → List Char → List String
  | [], acc => [String.mk acc.reverse]
  | c :: rest, acc =>
    if c = ' ' then String.mk acc.reverse :: splitSpaceAux rest []
    else splitSpaceAux rest (c :: acc)

/-- Model of JS `String.prototype.split(' ')`: fields between single-space
separators, empty fields kept. -/
def splitSpace (s : String) : List String := splitSpaceAux s.data []

/-- Model of JS `Array.prototype.join(' ')`. -/
def joinSpace : List String → String
  | [] => ""
  | [s] => s
  | s :: rest => s ++ " " ++ joinSpace rest

/-- Model of JS `String.prototype.startsWith("--")`. -/
def startsWithDashDash (s : String) : Bool :=
  match s.data with
  | '-' :: '-' :: _ => true
  | _ => false

/-- Model of JS `String.prototype.slice(2)`, used to strip a `--` flag
marker. -/
def dropFlagDashes (s : String) : String := String.mk (s.data.drop 2)

/-- One parameter schema of a module command: name, description, default. -/
structure Param where
  name : String
  description : String := ""
  defaultValue : Option Value := none
deriving DecidableEq, Repr

/-- One command of a module as the metadata snapshot `toJSON()` exposes it:
its name and its parameter dictionary (key, schema) in insertion order. -/
structure Cmd where
  name : String
  parameters : List (String × Param) := []
deriving DecidableEq, Repr

/-- The metadata snapshot `module.toJSON()`: name and command table. -/
structure ModuleMeta where
  name : String
  commands : List Cmd
deriving DecidableEq, Repr

/-- A thrown JS error, as far as the engine inspects it: the constructor
name (`error.constructor.name`) and the message. -/
structure JsError where
  ctorName : String
  message : String
deriving DecidableEq, Repr

/-- `new Error(message)`. -/
def jsError (message : String) : JsError := ⟨"Error", message⟩

/-- The TypeError the runtime raises on property access of `undefined`. -/
def jsTypeError (message : String) : JsError := ⟨"TypeError", message⟩

/-- A CoreJS response: HTTP-style code and payload. -/
structure Response where
  code : Nat
  data : String
deriving DecidableEq, Repr

def RESPONSE_OK : Response := ⟨200, ""⟩

def RESPONSE_NO_CONTENT : Response := ⟨204, ""⟩

def ErrorResponse (code : Nat) (message : String) : Response := ⟨code, message⟩

def TextResponse (text : String) : Response := ⟨200, text⟩

/-- An external module of the registry: name, command metadata and the
`execute(command, args)` entry point, which may yield a response, yield
nothing (void), or throw. -/
structure Module where
  name : String
  commands : List Cmd
  exec : String → AList → Except JsError (Option Response)

/-- `module.toJSON()`: the compile-time metadata snapshot. -/
def Module.toJSON (m : Module) : ModuleMeta := ⟨m.name, m.commands⟩

/-- `module.has(command)`: case-insensitive command table membership. -/
def Module.has (m : Module) (command : String) : Bool :=
  m.commands.any (fun c => strLower c.name == command)

/-- Modelled from the spec: `CoreJS.parseArgsFromString` (external
collaborator, not in this repository) parses the remaining path tokens as
flag-style `--key value` pairs into a static-argument dictionary; a flag
with no value becomes `true`. -/
def parseTokens : List String → AList → AList
  | [], acc => acc
  | [t], acc =>
    if startsWithDashDash t then setKey acc (dropFlagDashes t) (.bool true) else acc
  | t :: v :: rest, acc =>
    if startsWithDashDash t then
      if startsWithDashDash v then
        parseTokens (v :: rest) (setKey acc (dropFlagDashes t) (.bool true))
      else parseTokens rest (setKey acc (dropFlagDashes t) (.str v))
    else parseTokens (v :: rest) acc

/-- Modelled from the spec: entry point of the static-argument parser. -/
def parseArgsFromString (s : String) : AList :=
  parseTokens (splitSpace s) []

/-- Modelled from the spec: `CoreJS.ParameterList.filter` (external
collaborator, not in this repository). Walks the declared parameters in
order; a raw value present under the declared name is kept, a missing one
falls back to the declared default; keys of the raw bag not declared by
any parameter are dropped. -/
def filterParams (params : List Param) (raw : AList) : AList :=
  match params with
  | [] => []
  | p :: rest =>
    (match lookupKey raw p.name with
      | some v => [(p.name, v)]
      | none =>
        match p.defaultValue with
        | some d => [(p.name, d)]
        | none => []) ++ filterParams rest raw

/-- `RouteOptions` of a route specification. -/
structure RouteOptions where
  broadcast : Bool := false
deriving DecidableEq, Repr

/-- `RouteData`: one raw route specification from configuration. -/
structure RouteData where
  description : Option String := none
  options : Option RouteOptions := none
  paths : List String := []
deriving Repr

/-- One compiled path step of a route: resolved module, lowercased command
and the static arguments parsed from the path string. -/
structure Step where
  module : Module
  command : String
  args : AList

/-- A compiled `Route`. -/
structure Route where
  description : String
  options : RouteOptions
  parameters : List Param
  paths : List Step

/-- The route table `_routes`: lowercased route name to compiled route, in
insertion order. -/
abbrev RouteTable := List (String × Route)

/-- The observable shape of a compiled step: the module's metadata
snapshot stands in for the live module reference. -/
structure StepShape where
  moduleData : ModuleMeta
  command : String
  args : AList
deriving DecidableEq, Repr

/-- The shape of a step. -/
def Step.shape (st : Step) : StepShape := ⟨st.module.toJSON, st.command, st.args⟩

/-- The observable shape of a compiled route: description, options,
parameter list in order, and the shapes of the path steps in order. -/
structure RouteShape where
  description : String
  options : RouteOptions
  parameters : List Param
  paths : List StepShape
deriving DecidableEq, Repr

/-- The shape of a route. -/
def Route.shape (R : Route) : RouteShape :=
  ⟨R.description, R.options, R.parameters, R.paths.map Step.shape⟩

/-- The shape of a route table: names in order with route shapes. -/
def tableShape (t : RouteTable) : List (String × RouteShape) :=
  t.map (fun nr => (nr.1, nr.2.shape))

/-- `App.init` lines 154-158: append every command parameter (dictionary
key, schema) whose lowercased key is not yet declared. -/
def addCommandParams (params : List Param) : List (String × Param) → List Param
  | [] => params
  | kp :: rest =>
    if params.any (fun q => strLower q.name == strLower kp.1) then
      addCommandParams params rest
    else addCommandParams (params ++ [kp.2]) rest

/-- `App.init` lines 160-162: collect the lowercased static-argument keys
that were not already collected verbatim. -/
def addRouteArgs (routeArgs : List String) : AList → List String
  | [] => routeArgs
  | kv :: rest =>
    if routeArgs.contains kv.1 then addRouteArgs routeArgs rest
    else addRouteArgs (routeArgs ++ [strLower kv.1]) rest

/-- `App.init` lines 171-179: for each collected static key, remove the
first parameter whose lowercased name equals it (no-op when none does). -/
def removeRouteArgs (params : List Param) : List String → List Param
  | [] => params
  | key :: rest => removeRouteArgs (params.eraseP (fun p => strLower p.name == key)) rest

/-- A registry is well formed when each command parameter dictionary binds
every schema under (case-insensitively) its own name, as the spec's
parameter-schema model prescribes. -/
def WFRegistry (modules : List Module) : Prop :=
  ∀ m ∈ modules, ∀ c ∈ m.commands, ∀ kp ∈ c.parameters, strLower kp.1 = strLower kp.2.name

/-- No two parameters of the list share a lowercased name. -/
def ParamsDistinct (ps : List Param) : Prop :=
  ps.Pairwise (fun p q => strLower p.name ≠ strLower q.name)

/-- Every string of the list is already lowercase. -/
def AllLower (l : List String) : Prop := ∀ s ∈ l, strLower s = s

/-- The static-override invariant of one compiled route: no aggregated
parameter shares a (lowercased) name with any step's static-argument key. -/
def RouteStaticFree (R : Route) : Prop :=
  ∀ p ∈ R.parameters, ∀ st ∈ R.paths, ∀ kv ∈ st.args, strLower p.name ≠ strLower kv.1

/-- `App.init` lines 130-169: compile the path strings of one route,
accumulating the steps, the aggregated parameter list and the collected
static keys; the first failure aborts with the thrown error. -/
def compilePaths (modules : List Module) (name : String) :
    List String → Nat → List Param → List String →
    Except JsError (List Step × List Param × List String)
  | [], _, params, routeArgs => .ok ([], params, routeArgs)
  | path :: rest, pathIndex, params, routeArgs =>
    let split := splitSpace path
    let firstTok := split.headD ""
    if firstTok = "" then
      .error (jsError s!"missing module name of route '{name}' at path index '{pathIndex}'")
    else
      let moduleName := strLower firstTok
      match modules.find? (fun m => strLower m.name == moduleName) with
      | none => .error (jsError s!"module with name '{firstTok}' does not exist")
      | some module =>
        match split.get? 1 with
        | none =>
          .error (jsTypeError "Cannot read properties of undefined (reading toLowerCase)")
        | some second =>
          let command := strLower second
          if command = "" then
            .error (jsError s!"missing command of route '{name}' at path index '{pathIndex}'")
          else if !(module.has command) then
            .error
              (jsError s!"invalid command '{command}' of route '{name}' at path index '{pathIndex}'")
          else
            let args := parseArgsFromString (joinSpace (split.drop 2))
            match (modules.map Module.toJSON).find? (fun d => strLower d.name == moduleName) with
            | none =>
              .error (jsTypeError "Cannot read properties of undefined (reading commands)")
            | some moduleData =>
              match moduleData.commands.find? (fun t => strLower t.name == command) with
              | none =>
                .error (jsTypeError "Cannot read properties of undefined (reading parameters)")
              | some commandData =>
                match compilePaths modules name rest (pathIndex + 1)
                    (addCommandParams params commandData.parameters)
                    (addRouteArgs routeArgs args) with
                | .error e => .error e
                | .ok (steps, pf, raf) =>
                  .ok ({ module := module, command := command, args := args } :: steps, pf, raf)

/-- `App.init` lines 114-187: fold over the route specifications in
iteration order, installing each compiled route into the table as it goes;
a thrown error stops the fold, and the pair records the table state at that
moment together with the error. -/
def buildRoutes (modules : List Module) :
    List (String × RouteData) → Nat → RouteTable → RouteTable × Option JsError
  | [], _, acc => (acc, none)
  | (name, data) :: rest, routeIndex, acc =>
    if name = "" then
      (acc, some (jsError s!"route at index '{routeIndex}' has invalid name"))
    else if data.paths.isEmpty then
      (acc, some (jsError s!"route '{name}' needs to have at least one path"))
    else
      match compilePaths modules name data.paths 0 [] [] with
      | .error e => (acc, some e)
      | .ok (steps, params, routeArgs) =>
        let route : Route :=
          { description := data.description.getD ""
            options := data.options.getD {}
            parameters := removeRouteArgs params routeArgs
            paths := steps }
        buildRoutes modules rest (routeIndex + 1) (setKey acc (strLower name) route)

/-- The route-compilation phase of `App.init` (lines 89-188): `_routes` is
cleared first (line 96) and rebuilt in place, so the previous table does
not participate; the result is the table state after init together with
the error that aborted it, if any. -/
def appInit (_previous : RouteTable) (modules : List Module)
    (specs : List (String × RouteData)) : RouteTable × Option JsError :=
  buildRoutes modules specs 0 []

/-- One `module.execute(command, args)` invocation the dispatcher made,
with the argument bag as passed. -/
structure Call where
  moduleName : String
  command : String
  args : AList
deriving DecidableEq, Repr

/-- `App.execute` lines 220-255: the step loop. The bag is shared across
steps; each iteration merges the step's static args into it, invokes the
module, skips void results, adopts a yielded result, stops on a non-OK,
non-NoContent code, and under broadcast keeps going after a success. -/
def runSteps (broadcast : Bool) :
    List Step → AList → Response → List Call →
    List Call × Except JsError Response
  | [], _, result, trace => (trace, .ok result)
  | d :: rest, args, result, trace =>
    let args := assign args d.args
    let trace := trace ++ [⟨d.module.name, d.command, args⟩]
    match d.module.exec d.command args with
    | .error e => (trace, .error e)
    | .ok none => runSteps broadcast rest args result trace
    | .ok (some r) =>
      if r.code == 200 || r.code == 204 then
        if broadcast then runSteps broadcast rest args r trace
        else (trace, .ok r)
      else (trace, .ok r)

/-- The argument bag as it stands when step `j` is invoked: the filtered
bag with the static args of steps `0..j` merged into it in order. -/
def stepBag (steps : List Step) (bag : AList) (j : Nat) : AList :=
  ((steps.take (j + 1)).map Step.args).foldl assign bag

/-- The observable outcome of one `App.execute` call: the response, the
module invocations made, and the errors emitted on `onError`. -/
structure ExecOutcome where
  response : Response
  calls : List Call
  errors : List JsError
deriving Repr

/-- `App.onDebugChanged` lines 265-269: the configured invalid-route
response. -/
def invalidRouteResponse (debug : Bool) : Response :=
  if debug then ErrorResponse 403 "#_invalid_route" else RESPONSE_NO_CONTENT

/-- `App.toString` lines 271-284. -/
def appToString (name version author description repository : String)
    (routes : RouteTable) : String :=
  let r0 := name ++ " v" ++ version ++ " by " ++ author ++ "\n"
  let r1 := if description ≠ "" then r0 ++ "\n" ++ description ++ "\n" else r0
  let r2 := if repository ≠ "" then r1 ++ "\n" ++ repository ++ "\n" else r1
  r2 ++ "\nRoutes:\n"
    ++ String.intercalate "\n" (routes.map (fun nr => nr.1 ++ " - " ++ nr.2.description))
    ++ "\n"

/-- The app state `App.execute` reads. -/
structure AppModel where
  name : String := ""
  version : String := ""
  author : String := ""
  description : String := ""
  repository : String := ""
  debug : Bool := false
  routes : RouteTable := []

/-- `App.execute` lines 204-263: empty route name yields the description,
an unknown route the configured invalid-route response; otherwise the raw
bag is filtered through the aggregated parameter list and the step loop
runs inside the try/catch that translates thrown errors. -/
def appExecute (app : AppModel) (route : String) (args : AList) : ExecOutcome :=
  if route = "" then
    ⟨TextResponse (appToString app.name app.version app.author app.description
        app.repository app.routes), [], []⟩
  else
    match lookupKey app.routes (strLower route) with
    | none => ⟨invalidRouteResponse app.debug, [], []⟩
    | some routeData =>
      let safeArgs := filterParams routeData.parameters args
      match runSteps routeData.options.broadcast routeData.paths safeArgs RESPONSE_OK [] with
      | (trace, .ok r) => ⟨r, trace, []⟩
      | (trace, .error e) =>
        ⟨if e.ctorName == "CoreError" then ErrorResponse 403 e.message
          else ErrorResponse 500 "#_something_went_wrong", trace, [e]⟩

/-! ### Concrete fixtures used by witnesses and counterexamples -/

/-- A module command named ping without parameters. -/
def pingCmd : Cmd := { name := "ping" }

/-- A registry module whose command `c` declares no parameter and which
always answers OK. -/
def okModule : Module :=
  { name := "m"
    commands := [pingCmd, { name := "c" }]
    exec := fun _ _ => .ok (some RESPONSE_OK) }

/-- A module with the same metadata snapshot as `okModule` but a different
execute behavior. -/
def okModule2 : Module :=
  { name := "m"
    commands := [pingCmd, { name := "c" }]
    exec := fun _ _ => .ok (some RESPONSE_NO_CONTENT) }

/-- A registry module whose execute always throws a generic `Error`. -/
def throwModule : Module :=
  { name := "boom"
    commands := [pingCmd]
    exec := fun _ _ => .error (jsError "database on fire") }

/-- An app with one handcrafted route `t` whose single step throws. -/
def throwApp : AppModel :=
  { routes := [("t",
      { description := ""
        options := {}
        parameters := []
        paths := [{ module := throwModule, command := "ping", args := [] }] })] }

/-- A module that always answers with the fixed response `r`. -/
def constModule (nm : String) (r : Response) : Module :=
  { name := nm, commands := [pingCmd], exec := fun _ _ => .ok (some r) }

/-- A module whose execute yields no result (void). -/
def voidModule : Module :=
  { name := "v", commands := [pingCmd], exec := fun _ _ => .ok none }

/-- A step invoking the ping command of a module, with no static args. -/
def stepOf (m : Module) : Step := { module := m, command := "ping", args := [] }

/-- A three-step broadcast route `[A→OK, B→OK, C→Error 400]`. -/
def broadcastRoute : Route :=
  { description := ""
    options := { broadcast := true }
    parameters := []
    paths := [stepOf (constModule "a" ⟨200, "A"⟩), stepOf (constModule "b" ⟨200, "B"⟩),
      stepOf (constModule "c" ⟨400, "C"⟩)] }

/-- An app exposing `broadcastRoute` under the name `r`. -/
def broadcastApp : AppModel := { routes := [("r", broadcastRoute)] }

/-- A non-broadcast route `[A→void, B→OK, X→...]`. -/
def nonBroadcastRoute : Route :=
  { description := ""
    options := {}
    parameters := []
    paths := [stepOf voidModule, stepOf (constModule "b" ⟨200, "B"⟩),
      stepOf (constModule "x" ⟨500, "X"⟩)] }

/-- An app exposing `nonBroadcastRoute` under the name `r`. -/
def nonBroadcastApp : AppModel := { routes := [("r", nonBroadcastRoute)] }

/-- A route specification whose single path carries the static arg `--y 1`
for a command that declares no parameter at all. -/
def staticSpecs : List (String × RouteData) := [("r", { paths := ["m c --y 1"] })]

/-- The table compiled from `staticSpecs` against the registry `[okModule]`. -/
def staticTable : RouteTable := (appInit [] [okModule] staticSpecs).1

/-- An app serving `staticTable`. -/
def staticApp : AppModel := { routes := staticTable }

/-- The route `staticTable` stores under `r`, written out. -/
def staticRoute : Route :=
  { description := ""
    options := {}
    parameters := []
    paths := [{ module := okModule, command := "c", args := [("y", Value.str "1")] }] }

/-- A route specification fails compilation when its name is empty, it has
no path, or some path string does not compile against the registry. -/
def routeFails (modules : List Module) (p : String × RouteData) : Prop :=
  p.1 = "" ∨ p.2.paths = [] ∨ ∃ e, compilePaths modules p.1 p.2.paths 0 [] [] = .error e

/-- The route table produced by a successful earlier init (one route `old`). -/
def prevTable : RouteTable := (appInit [] [okModule] [("old", { paths := ["m ping"] })]).1

/-- A spec mapping whose first route compiles and whose second one fails
(unknown module `ghost`). -/
def failingSpecs : List (String × RouteData) :=
  [("good", { paths := ["m ping"] }), ("bad", { paths := ["ghost ping"] })]

/-- A two-step broadcast route whose steps carry distinct static args. -/
def accRoute : Route :=
  { description := ""
    options := { broadcast := true }
    parameters := []
    paths := [{ module := okModule, command := "c", args := [("a", Value.str "1")] },
      { module := okModule, command := "c", args := [("b", Value.str "2")] }] }

/-- An app exposing `accRoute` under the name `acc`. -/
def accApp : AppModel := { routes := [("acc", accRoute)] }

/-- A module whose command `c` declares the parameters `x` and `y`. -/
def paramModule : Module :=
  { name := "pm"
    commands :=
      [{ name := "c", parameters := [("x", { name := "x" }), ("y", { name := "y" })] }]
    exec := fun _ _ => .ok (some RESPONSE_OK) }

/-- A spec whose single path statically fixes the declared parameter `y`. -/
def paramSpecs : List (String × RouteData) := [("r", { paths := ["pm c --y 1"] })]

/-- The step `paramSpecs` compiles to. -/
def paramStep : Step :=
  { module := paramModule, command := "c", args := [("y", Value.str "1")] }

/-- The route `paramSpecs` compiles to: `y` is statically fixed and has
been removed from the aggregated parameter list. -/
def paramRoute : Route :=
  { description := ""
    options := {}
    parameters := [{ name := "x" }]
    paths := [paramStep] }

/-! ### Helper lemmas -/

theorem lookupKey_setKey_self {α : Type} (l : List (String × α)) (k : String) (v : α) :
    lookupKey (setKey l k v) k = some v := by
  induction l with
  | nil => simp [setKey, lookupKey]
  | cons kv t ih =>
    by_cases h : kv.1 == k
    · simp [setKey, lookupKey, h]
    · simp only [setKey, lookupKey]
      rw [if_neg (by simpa using h)]
      simpa [lookupKey, h] using ih

theorem lookupKey_setKey_ne {α : Type} (l : List (String × α)) (k k' : String) (v : α)
    (h : k' ≠ k) : lookupKey (setKey l k v) k' = lookupKey l k' := by
  induction l with
  | nil => simp [setKey, lookupKey, h, Ne.symm h]
  | cons kv t ih =>
    by_cases hk : kv.1 == k
    · have : kv.1 = k := by simpa using hk
      simp [setKey, lookupKey, hk, this, h, Ne.symm h]
    · simp only [setKey, lookupKey]
      rw [if_neg (by simpa using hk)]
      by_cases hk' : kv.1 == k'
      · simp [lookupKey, hk']
      · simp only [lookupKey]
        rw [if_neg (by simpa using hk'), if_neg (by simpa using hk')]
        exact ih

theorem lookupKey_setKey_isSome {α : Type} (l : List (String × α)) (k k' : String) (v : α)
    (h : (lookupKey l k').isSome) : (lookupKey (setKey l k v) k').isSome := by
  by_cases hk : k' = k
  · subst hk; simp [lookupKey_setKey_self]
  · rwa [lookupKey_setKey_ne l k k' v hk]

theorem assign_cons {α : Type} (t : List (String × α)) (kv : String × α)
    (s : List (String × α)) : assign t (kv :: s) = assign (setKey t kv.1 kv.2) s := rfl

theorem lookupKey_assign_isSome {α : Type} (t s : List (String × α)) (k : String)
    (h : (lookupKey t k).isSome) : (lookupKey (assign t s) k).isSome := by
  induction s generalizing t with
  | nil => exact h
  | cons kv s' ih => exact ih _ (lookupKey_setKey_isSome _ _ _ _ h)

theorem lookupKey_assign_not_mem {α : Type} (t s : List (String × α)) (k : String)
    (h : ∀ v, (k, v) ∉ s) : lookupKey (assign t s) k = lookupKey t k := by
  induction s generalizing t with
  | nil => rfl
  | cons kv s' ih =>
    obtain ⟨k0, v0⟩ := kv
    have hk : k ≠ k0 := by
      intro he
      exact h v0 (he ▸ List.mem_cons_self _ _)
    rw [assign_cons, ih _ (fun v hv => h v (List.mem_cons_of_mem _ hv)),
      lookupKey_setKey_ne _ _ _ _ hk]

theorem lookupKey_assign_mem_nodup {α : Type} (t s : List (String × α)) (k : String) (v : α)
    (hnd : (s.map Prod.fst).Nodup) (hm : (k, v) ∈ s) :
    lookupKey (assign t s) k = some v := by
  induction s generalizing t with
  | nil => cases hm
  | cons kv s' ih =>
    rw [List.map_cons, List.nodup_cons] at hnd
    rcases List.mem_cons.mp hm with he | hmem
    · subst he
      rw [assign_cons, lookupKey_assign_not_mem]
      · exact lookupKey_setKey_self _ _ _
      · intro v' hv'
        exact hnd.1 (by simpa using List.mem_map_of_mem Prod.fst hv')
    · rw [assign_cons]
      exact ih _ hnd.2 hmem

theorem lookupKey_assign_or {α : Type} (t s : List (String × α)) (k : String) :
    lookupKey (assign t s) k = lookupKey t k ∨
      ∃ v, (k, v) ∈ s ∧ lookupKey (assign t s) k = some v := by
  induction s generalizing t with
  | nil => exact Or.inl rfl
  | cons kv s' ih =>
    rw [assign_cons]
    rcases ih (setKey t kv.1 kv.2) with h | ⟨v, hv, he⟩
    · by_cases hk : k = kv.1
      · subst hk
        refine Or.inr ⟨kv.2, by simp, ?_⟩
        rw [h, lookupKey_setKey_self]
      · rw [h, lookupKey_setKey_ne _ _ _ _ hk]
        exact Or.inl rfl
    · exact Or.inr ⟨v, List.mem_cons_of_mem _ hv, he⟩

theorem lookupKey_foldl_assign_or {α : Type} (ds : List (List (String × α)))
    (t : List (String × α)) (k : String) :
    lookupKey (ds.foldl assign t) k = lookupKey t k ∨
      ∃ d ∈ ds, ∃ v, (k, v) ∈ d ∧ lookupKey (ds.foldl assign t) k = some v := by
  induction ds generalizing t with
  | nil => exact Or.inl rfl
  | cons d ds' ih =>
    rw [List.foldl_cons]
    rcases ih (assign t d) with h | ⟨d', hd', v, hv, he⟩
    · rw [h]
      rcases lookupKey_assign_or t d k with h2 | ⟨v, hv, he⟩
      · exact Or.inl h2
      · exact Or.inr ⟨d, by simp, v, hv, he⟩
    · exact Or.inr ⟨d', List.mem_cons_of_mem _ hd', v, hv, he⟩

theorem runSteps_nil (bc : Bool) (bag : AList) (res : Response) (tr : List Call) :
    runSteps bc [] bag res tr = (tr, .ok res) := rfl

theorem runSteps_cons (bc : Bool) (d : Step) (rest : List Step) (bag : AList)
    (res : Response) (tr : List Call) :
    runSteps bc (d :: rest) bag res tr =
      (match d.module.exec d.command (assign bag d.args) with
        | .error e =>
          (tr ++ [⟨d.module.name, d.command, assign bag d.args⟩], .error e)
        | .ok none =>
          runSteps bc rest (assign bag d.args) res
            (tr ++ [⟨d.module.name, d.command, assign bag d.args⟩])
        | .ok (some r) =>
          if r.code == 200 || r.code == 204 then
            if bc then
              runSteps bc rest (assign bag d.args) r
                (tr ++ [⟨d.module.name, d.command, assign bag d.args⟩])
            else (tr ++ [⟨d.module.name, d.command, assign bag d.args⟩], .ok r)
          else (tr ++ [⟨d.module.name, d.command, assign bag d.args⟩], .ok r)) := rfl

theorem runSteps_trace_append (bc : Bool) (steps : List Step) (bag : AList)
    (res : Response) (tr : List Call) :
    runSteps bc steps bag res tr =
      (tr ++ (runSteps bc steps bag res []).1, (runSteps bc steps bag res []).2) := by
  induction steps generalizing bag res tr with
  | nil => simp [runSteps_nil]
  | cons d rest ih =>
    rw [runSteps_cons, runSteps_cons]
    cases hx : d.module.exec d.command (assign bag d.args) with
    | error e => simp
    | ok o =>
      cases o with
      | none =>
        simp only [List.nil_append]
        have h1 := ih (assign bag d.args) res
          (tr ++ [Call.mk d.module.name d.command (assign bag d.args)])
        have h2 := ih (assign bag d.args) res
          [Call.mk d.module.name d.command (assign bag d.args)]
        rw [h1, h2]
        simp
      | some r =>
        cases hc : (r.code == 200 || r.code == 204) with
        | false => simp [hc]
        | true =>
          cases bc with
          | false => simp [hc]
          | true =>
            simp only [hc, if_true, List.nil_append]
            have h1 := ih (assign bag d.args) r
              (tr ++ [Call.mk d.module.name d.command (assign bag d.args)])
            have h2 := ih (assign bag d.args) r
              [Call.mk d.module.name d.command (assign bag d.args)]
            rw [h1, h2]
            simp

theorem runSteps_broadcast_until_error (pre : List Step) (e : Step) (post : List Step)
    (re : Response)
    (hpre : ∀ s ∈ pre, ∃ r : Response,
      (∀ bag, s.module.exec s.command bag = .ok (some r)) ∧ (r.code = 200 ∨ r.code = 204))
    (he : ∀ bag, e.module.exec e.command bag = .ok (some re))
    (hre : re.code ≠ 200 ∧ re.code ≠ 204) (bag : AList) (res : Response) :
    (runSteps true (pre ++ e :: post) bag res []).2 = .ok re ∧
    (runSteps true (pre ++ e :: post) bag res []).1.map (fun c => (c.moduleName, c.command)) =
      (pre ++ [e]).map (fun s => (s.module.name, s.command)) := by
  induction pre generalizing bag res with
  | nil =>
    rw [List.nil_append, runSteps_cons, he (assign bag e.args)]
    have hcond : (re.code == 200 || re.code == 204) = false := by
      simp [hre.1, hre.2]
    simp [hcond]
  | cons s pre' ih =>
    obtain ⟨r, hr, hcode⟩ := hpre s (List.mem_cons_self _ _)
    have hpre' := fun s' hs' => hpre s' (List.mem_cons_of_mem s hs')
    rw [List.cons_append, runSteps_cons, hr (assign bag s.args)]
    have hcond : (r.code == 200 || r.code == 204) = true := by
      rcases hcode with h | h <;> simp [h]
    simp only [hcond, if_true]
    rw [runSteps_trace_append]
    obtain ⟨ih1, ih2⟩ := ih hpre' (assign bag s.args) r
    refine ⟨ih1, ?_⟩
    simp only [List.nil_append, List.map_append, List.map_cons]
    rw [List.map_append] at ih2
    simp [ih2]

theorem runSteps_nonbroadcast_first_result (pre : List Step) (s : Step) (post : List Step)
    (r : Response)
    (hpre : ∀ p ∈ pre, ∀ bag, p.module.exec p.command bag = .ok none)
    (hs : ∀ bag, s.module.exec s.command bag = .ok (some r))
    (hr : r.code = 200 ∨ r.code = 204) (bag : AList) (res : Response) :
    (runSteps false (pre ++ s :: post) bag res []).2 = .ok r ∧
    (runSteps false (pre ++ s :: post) bag res []).1.map (fun c => (c.moduleName, c.command)) =
      (pre ++ [s]).map (fun p => (p.module.name, p.command)) := by
  induction pre generalizing bag res with
  | nil =>
    rw [List.nil_append, runSteps_cons, hs (assign bag s.args)]
    have hcond : (r.code == 200 || r.code == 204) = true := by
      rcases hr with h | h <;> simp [h]
    simp [hcond]
  | cons p pre' ih =>
    have hp := hpre p (List.mem_cons_self _ _)
    have hpre' := fun p' hp' => hpre p' (List.mem_cons_of_mem p hp')
    rw [List.cons_append, runSteps_cons, hp (assign bag p.args)]
    rw [runSteps_trace_append]
    obtain ⟨ih1, ih2⟩ := ih hpre' (assign bag p.args) res
    refine ⟨ih1, ?_⟩
    simp only [List.nil_append, List.map_append, List.map_cons]
    rw [List.map_append] at ih2
    simp [ih2]

theorem lookupKey_eq_some_mem {α : Type} (l : List (String × α)) (k : String) (v : α)
    (h : lookupKey l k = some v) : (k, v) ∈ l := by
  induction l with
  | nil => cases h
  | cons kv t ih =>
    obtain ⟨k0, v0⟩ := kv
    simp only [lookupKey] at h
    by_cases hk : k0 = k
    · subst hk
      rw [if_pos (by simp)] at h
      obtain rfl := Option.some.inj h
      exact List.mem_cons_self _ _
    · rw [if_neg (by simpa using hk)] at h
      exact List.mem_cons_of_mem _ (ih h)

theorem lookupKey_isSome_exists {α : Type} (l : List (String × α)) (k : String)
    (h : (lookupKey l k).isSome) : ∃ v, (k, v) ∈ l := by
  cases hv : lookupKey l k with
  | none => rw [hv] at h; cases h
  | some v => exact ⟨v, lookupKey_eq_some_mem _ _ _ hv⟩

theorem lookupKey_assign_mem_isSome {α : Type} (t s : List (String × α)) (k : String)
    (v : α) (hm : (k, v) ∈ s) : (lookupKey (assign t s) k).isSome := by
  induction s generalizing t with
  | nil => cases hm
  | cons kv s' ih =>
    rw [assign_cons]
    rcases List.mem_cons.mp hm with he | hmem
    · apply lookupKey_assign_isSome
      have h1 : kv.1 = k := by rw [← he]
      rw [h1, lookupKey_setKey_self]
      rfl
    · exact ih _ hmem

theorem lookupKey_foldl_assign_isSome {α : Type} (ds : List (List (String × α)))
    (t : List (String × α)) (k : String)
    (h : (lookupKey t k).isSome) : (lookupKey (ds.foldl assign t) k).isSome := by
  induction ds generalizing t with
  | nil => exact h
  | cons d ds' ih => exact ih _ (lookupKey_assign_isSome _ _ _ h)

theorem lookupKey_foldl_assign_not_mem {α : Type} (ds : List (List (String × α)))
    (t : List (String × α)) (k : String)
    (h : ∀ d ∈ ds, ∀ v, (k, v) ∉ d) :
    lookupKey (ds.foldl assign t) k = lookupKey t k := by
  induction ds generalizing t with
  | nil => rfl
  | cons d ds' ih =>
    rw [List.foldl_cons, ih _ (fun d' hd' => h d' (List.mem_cons_of_mem _ hd')),
      lookupKey_assign_not_mem _ _ _ (h d (List.mem_cons_self _ _))]

theorem mem_filterParams (params : List Param) (raw : AList) (kv : String × Value)
    (h : kv ∈ filterParams params raw) : ∃ p ∈ params, p.name = kv.1 := by
  induction params with
  | nil => cases h
  | cons p rest ih =>
    simp only [filterParams] at h
    rcases List.mem_append.mp h with h1 | h1
    · refine ⟨p, List.mem_cons_self _ _, ?_⟩
      cases hl : lookupKey raw p.name with
      | some v =>
        rw [hl] at h1
        simp at h1
        rw [h1]
      | none =>
        rw [hl] at h1
        cases hd : p.defaultValue with
        | some d =>
          rw [hd] at h1
          simp at h1
          rw [h1]
        | none =>
          rw [hd] at h1
          cases h1
    · obtain ⟨q, hq, hn⟩ := ih h1
      exact ⟨q, List.mem_cons_of_mem _ hq, hn⟩

theorem lookupKey_filterParams_undeclared (params : List Param) (raw : AList) (k : String)
    (hk : ∀ p ∈ params, p.name ≠ k) : lookupKey (filterParams params raw) k = none := by
  cases hv : lookupKey (filterParams params raw) k with
  | none => rfl
  | some v =>
    obtain ⟨p, hp, hn⟩ := mem_filterParams params raw (k, v) (lookupKey_eq_some_mem _ _ _ hv)
    exact absurd hn (hk p hp)

theorem runSteps_call_args (bc : Bool) (steps : List Step) (bag : AList) (res : Response)
    (tr : List Call) (c : Call) (hc : c ∈ (runSteps bc steps bag res tr).1) :
    c ∈ tr ∨ ∃ ds : List AList, (∀ d ∈ ds, ∃ st ∈ steps, st.args = d) ∧
      c.args = ds.foldl assign bag := by
  induction steps generalizing bag res tr with
  | nil => exact Or.inl hc
  | cons d rest ih =>
    have hterm : c ∈ tr ++ [Call.mk d.module.name d.command (assign bag d.args)] →
        c ∈ tr ∨ ∃ ds : List AList, (∀ d' ∈ ds, ∃ st ∈ d :: rest, st.args = d') ∧
          c.args = ds.foldl assign bag := by
      intro hm
      rcases List.mem_append.mp hm with h1 | h1
      · exact Or.inl h1
      · refine Or.inr ⟨[d.args], ?_, ?_⟩
        · intro d' hd'
          simp at hd'
          exact ⟨d, List.mem_cons_self _ _, hd'.symm⟩
        · simp at h1
          rw [h1]
          rfl
    have hcont : ∀ res', c ∈ (runSteps bc rest (assign bag d.args) res'
        (tr ++ [Call.mk d.module.name d.command (assign bag d.args)])).1 →
        c ∈ tr ∨ ∃ ds : List AList, (∀ d' ∈ ds, ∃ st ∈ d :: rest, st.args = d') ∧
          c.args = ds.foldl assign bag := by
      intro res' hm
      rcases ih (assign bag d.args) res' _ hm with h1 | ⟨ds, hds, he⟩
      · exact hterm h1
      · refine Or.inr ⟨d.args :: ds, ?_, ?_⟩
        · intro d' hd'
          rcases List.mem_cons.mp hd' with h2 | h2
          · exact ⟨d, List.mem_cons_self _ _, h2.symm⟩
          · obtain ⟨st, hst, hsa⟩ := hds d' h2
            exact ⟨st, List.mem_cons_of_mem _ hst, hsa⟩
        · rw [he, List.foldl_cons]
    rw [runSteps_cons] at hc
    cases hx : d.module.exec d.command (assign bag d.args) with
    | error e =>
      simp only [hx] at hc
      exact hterm hc
    | ok o =>
      cases o with
      | none =>
        simp only [hx] at hc
        exact hcont res hc
      | some r =>
        simp only [hx] at hc
        split at hc
        · split at hc
          · exact hcont r hc
          · exact hterm hc
        · exact hterm hc

theorem appExecute_calls_eq (app : AppModel) (route : String) (args : AList) (rd : Route)
    (h0 : route ≠ "") (h1 : lookupKey app.routes (strLower route) = some rd) :
    (appExecute app route args).calls =
      (runSteps rd.options.broadcast rd.paths (filterParams rd.parameters args)
        RESPONSE_OK []).1 := by
  unfold appExecute
  rw [if_neg h0, h1]
  rcases hp : runSteps rd.options.broadcast rd.paths (filterParams rd.parameters args)
    RESPONSE_OK [] with ⟨tr, ex⟩
  cases ex <;> simp [hp]

theorem buildRoutes_nil (mods : List Module) (i : Nat) (acc : RouteTable) :
    buildRoutes mods [] i acc = (acc, none) := rfl

theorem buildRoutes_cons (mods : List Module) (name : String) (data : RouteData)
    (rest : List (String × RouteData)) (i : Nat) (acc : RouteTable) :
    buildRoutes mods ((name, data) :: rest) i acc =
      (if name = "" then
        (acc, some (jsError s!"route at index '{i}' has invalid name"))
      else if data.paths.isEmpty then
        (acc, some (jsError s!"route '{name}' needs to have at least one path"))
      else
        match compilePaths mods name data.paths 0 [] [] with
        | .error e => (acc, some e)
        | .ok (steps, params, routeArgs) =>
          buildRoutes mods rest (i + 1)
            (setKey acc (strLower name)
              { description := data.description.getD ""
                options := data.options.getD {}
                parameters := removeRouteArgs params routeArgs
                paths := steps })) := rfl

theorem charLower_of_neg (c : Char) (h : ¬(65 ≤ c.toNat ∧ c.toNat ≤ 90)) :
    charLower c = c := by
  simp [charLower, h]

theorem charLower_toNat (c : Char) (h : 65 ≤ c.toNat ∧ c.toNat ≤ 90) :
    (charLower c).toNat = c.toNat + 32 := by
  have hv : (c.toNat + 32).isValidChar := Or.inl (by omega)
  unfold charLower
  rw [if_pos h]
  generalize c.toNat = n at hv ⊢
  simp only [Char.ofNat, dif_pos hv, Char.ofNatAux, Char.toNat]
  simp [UInt32.toNat, BitVec.toNat_ofNatLt]

theorem charLower_idem (c : Char) : charLower (charLower c) = charLower c := by
  by_cases h : 65 ≤ c.toNat ∧ c.toNat ≤ 90
  · apply charLower_of_neg
    rw [charLower_toNat c h]
    omega
  · rw [charLower_of_neg c h]
    exact charLower_of_neg c h

theorem strLower_idem (s : String) : strLower (strLower s) = strLower s := by
  unfold strLower
  apply congrArg String.mk
  show ((s.data.map charLower).map charLower) = s.data.map charLower
  rw [List.map_map]
  apply List.map_congr_left
  intro c _
  exact charLower_idem c

theorem addCommandParams_distinct (entries : List (String × Param))
    (hwfe : ∀ kp ∈ entries, strLower kp.1 = strLower kp.2.name) :
    ∀ params, ParamsDistinct params → ParamsDistinct (addCommandParams params entries) := by
  induction entries with
  | nil => intro params hd; exact hd
  | cons kp rest ih =>
    intro params hd
    have hwfe' := fun kp' h' => hwfe kp' (List.mem_cons_of_mem _ h')
    simp only [addCommandParams]
    by_cases hany : params.any (fun q => strLower q.name == strLower kp.1)
    · rw [if_pos hany]
      exact ih hwfe' params hd
    · rw [if_neg hany]
      apply ih hwfe'
      rw [ParamsDistinct, List.pairwise_append]
      refine ⟨hd, List.pairwise_singleton _ _, ?_⟩
      intro p hp q hq
      simp only [List.mem_singleton] at hq
      subst hq
      rw [← hwfe kp (List.mem_cons_self _ _)]
      intro hcontra
      apply hany
      rw [List.any_eq_true]
      exact ⟨p, hp, by simp [hcontra]⟩

theorem addRouteArgs_mono (args : AList) :
    ∀ ra (x : String), x ∈ ra → x ∈ addRouteArgs ra args := by
  induction args with
  | nil => intro ra x hx; exact hx
  | cons kv rest ih =>
    intro ra x hx
    simp only [addRouteArgs]
    by_cases hc : ra.contains kv.1
    · rw [if_pos hc]
      exact ih ra x hx
    · rw [if_neg hc]
      exact ih _ x (List.mem_append_left _ hx)

theorem addRouteArgs_lower (args : AList) :
    ∀ ra, AllLower ra → AllLower (addRouteArgs ra args) := by
  induction args with
  | nil => intro ra h; exact h
  | cons kv rest ih =>
    intro ra h
    simp only [addRouteArgs]
    by_cases hc : ra.contains kv.1
    · rw [if_pos hc]
      exact ih ra h
    · rw [if_neg hc]
      apply ih
      intro s hs
      rcases List.mem_append.mp hs with h1 | h1
      · exact h s h1
      · simp only [List.mem_singleton] at h1
        subst h1
        exact strLower_idem kv.1

theorem addRouteArgs_covers (args : AList) :
    ∀ ra, AllLower ra → ∀ kv ∈ args, strLower kv.1 ∈ addRouteArgs ra args := by
  induction args with
  | nil => intro ra _ kv hkv; cases hkv
  | cons kv0 rest ih =>
    intro ra hl kv hkv
    simp only [addRouteArgs]
    by_cases hc : ra.contains kv0.1
    · rw [if_pos hc]
      rcases List.mem_cons.mp hkv with rfl | hkv'
      · have hmem : kv.1 ∈ ra := by simpa using hc
        rw [hl kv.1 hmem]
        exact addRouteArgs_mono rest ra _ hmem
      · exact ih ra hl kv hkv'
    · rw [if_neg hc]
      have hl' : AllLower (ra ++ [strLower kv0.1]) := by
        intro s hs
        rcases List.mem_append.mp hs with h1 | h1
        · exact hl s h1
        · simp only [List.mem_singleton] at h1
          subst h1
          exact strLower_idem kv0.1
      rcases List.mem_cons.mp hkv with rfl | hkv'
      · exact addRouteArgs_mono rest _ _ (List.mem_append_right _ (List.mem_singleton_self _))
      · exact ih _ hl' kv hkv'

theorem paramsDistinct_eraseP (ps : List Param) (f : Param → Bool)
    (hd : ParamsDistinct ps) : ParamsDistinct (ps.eraseP f) :=
  List.Pairwise.sublist (List.eraseP_sublist ps) hd

theorem eraseP_no_match (key : String) : ∀ (ps : List Param), ParamsDistinct ps →
    ∀ p ∈ ps.eraseP (fun q => strLower q.name == key), strLower p.name ≠ key := by
  intro ps
  induction ps with
  | nil => intro _ p hp; cases hp
  | cons q ps' ih =>
    intro hd p hp
    by_cases hq : (strLower q.name == key) = true
    · rw [List.eraseP_cons_of_pos (p := fun r : Param => strLower r.name == key) hq] at hp
      have hqk : strLower q.name = key := by simpa using hq
      have hne := (List.pairwise_cons.mp hd).1 p hp
      intro hpk
      exact hne (hqk.trans hpk.symm)
    · rw [List.eraseP_cons_of_neg (p := fun r : Param => strLower r.name == key) hq] at hp
      rcases List.mem_cons.mp hp with rfl | hp'
      · intro hpk
        exact hq (by simp [hpk])
      · exact ih (List.pairwise_cons.mp hd).2 p hp'

theorem removeRouteArgs_subset : ∀ (keys : List String) (ps : List Param) (p : Param),
    p ∈ removeRouteArgs ps keys → p ∈ ps := by
  intro keys
  induction keys with
  | nil => intro ps p hp; exact hp
  | cons key rest ih =>
    intro ps p hp
    exact List.Sublist.mem (ih _ p hp) (List.eraseP_sublist ps)

theorem removeRouteArgs_removes : ∀ (keys : List String) (ps : List Param),
    ParamsDistinct ps → ∀ key ∈ keys, ∀ p ∈ removeRouteArgs ps keys,
      strLower p.name ≠ key := by
  intro keys
  induction keys with
  | nil => intro ps _ key hkey; cases hkey
  | cons key0 rest ih =>
    intro ps hd key hkey p hp
    rcases List.mem_cons.mp hkey with rfl | hkey'
    · exact eraseP_no_match key ps hd p (removeRouteArgs_subset rest _ p hp)
    · exact ih _ (paramsDistinct_eraseP _ _ hd) key hkey' p hp

theorem mem_setKey {α : Type} : ∀ (l : List (String × α)) (k : String) (v : α)
    (x : String × α), x ∈ setKey l k v → x ∈ l ∨ x = (k, v) := by
  intro l
  induction l with
  | nil =>
    intro k v x hx
    simp only [setKey, List.mem_singleton] at hx
    exact Or.inr hx
  | cons kv t ih =>
    intro k v x hx
    obtain ⟨k0, v0⟩ := kv
    simp only [setKey] at hx
    by_cases hk : (k0 == k) = true
    · rw [if_pos hk] at hx
      rcases List.mem_cons.mp hx with rfl | hx'
      · have : k0 = k := by simpa using hk
        rw [this]
        exact Or.inr rfl
      · exact Or.inl (List.mem_cons_of_mem _ hx')
    · rw [if_neg hk] at hx
      rcases List.mem_cons.mp hx with rfl | hx'
      · exact Or.inl (List.mem_cons_self _ _)
      · rcases ih k v x hx' with h | h
        · exact Or.inl (List.mem_cons_of_mem _ h)
        · exact Or.inr h

theorem compilePaths_ok_inv (mods : List Module) (hwf : WFRegistry mods) (name : String) :
    ∀ (paths : List String) (pidx : Nat) (params : List Param) (routeArgs : List String)
      (steps : List Step) (pf : List Param) (raf : List String),
      compilePaths mods name paths pidx params routeArgs = .ok (steps, pf, raf) →
      (ParamsDistinct params → ParamsDistinct pf) ∧
      (AllLower routeArgs → AllLower raf) ∧
      (∀ x ∈ routeArgs, x ∈ raf) ∧
      (AllLower routeArgs → ∀ st ∈ steps, ∀ kv ∈ st.args, strLower kv.1 ∈ raf) := by
  intro paths
  induction paths with
  | nil =>
    intro pidx params routeArgs steps pf raf h
    simp only [compilePaths, Except.ok.injEq, Prod.mk.injEq] at h
    obtain ⟨h1, h2, h3⟩ := h
    subst h1; subst h2; subst h3
    refine ⟨id, id, fun x hx => hx, ?_⟩
    intro _ st hst
    cases hst
  | cons path rest ih =>
    intro pidx params routeArgs steps pf raf h
    simp only [compilePaths] at h
    by_cases hft : (splitSpace path).headD "" = ""
    · rw [if_pos hft] at h
      simp at h
    · rw [if_neg hft] at h
      cases hfind : mods.find?
          (fun m => strLower m.name == strLower ((splitSpace path).headD "")) with
      | none =>
        simp only [hfind] at h
        simp at h
      | some module =>
        simp only [hfind] at h
        cases hsecond : (splitSpace path).get? 1 with
        | none =>
          simp only [hsecond] at h
          simp at h
        | some second =>
          simp only [hsecond] at h
          by_cases hcmd : strLower second = ""
          · rw [if_pos hcmd] at h
            simp at h
          · rw [if_neg hcmd] at h
            by_cases hhas : module.has (strLower second)
            · rw [if_neg (by simp [hhas])] at h
              cases hmeta : (mods.map Module.toJSON).find?
                  (fun d => strLower d.name == strLower ((splitSpace path).headD "")) with
              | none =>
                simp only [hmeta] at h
                simp at h
              | some moduleData =>
                simp only [hmeta] at h
                cases hcmdd : moduleData.commands.find?
                    (fun t => strLower t.name == strLower second) with
                | none =>
                  simp only [hcmdd] at h
                  simp at h
                | some commandData =>
                  simp only [hcmdd] at h
                  cases hrec : compilePaths mods name rest (pidx + 1)
                      (addCommandParams params commandData.parameters)
                      (addRouteArgs routeArgs
                        (parseArgsFromString (joinSpace ((splitSpace path).drop 2)))) with
                  | error e =>
                    simp only [hrec] at h
                    simp at h
                  | ok v =>
                    obtain ⟨steps', pf', raf'⟩ := v
                    simp only [hrec, Except.ok.injEq, Prod.mk.injEq] at h
                    obtain ⟨h1, h2, h3⟩ := h
                    subst h1; subst h2; subst h3
                    have hwfe : ∀ kp ∈ commandData.parameters,
                        strLower kp.1 = strLower kp.2.name := by
                      have hmem := List.mem_of_find?_eq_some hcmdd
                      obtain ⟨m, hm, hmj⟩ :=
                        List.mem_map.mp (List.mem_of_find?_eq_some hmeta)
                      intro kp hkp
                      refine hwf m hm commandData ?_ kp hkp
                      rw [← hmj] at hmem
                      exact hmem
                    obtain ⟨ih1, ih2, ih3, ih4⟩ := ih (pidx + 1) _ _ _ _ _ hrec
                    refine ⟨?_, ?_, ?_, ?_⟩
                    · intro hd
                      exact ih1 (addCommandParams_distinct _ hwfe _ hd)
                    · intro hl
                      exact ih2 (addRouteArgs_lower _ _ hl)
                    · intro x hx
                      exact ih3 x (addRouteArgs_mono _ _ x hx)
                    · intro hl st hst kv hkv
                      rcases List.mem_cons.mp hst with rfl | hst'
                      · exact ih3 _ (addRouteArgs_covers _ _ hl kv hkv)
                      · exact ih4 (addRouteArgs_lower _ _ hl) st hst' kv hkv
            · rw [if_pos (by simp [hhas])] at h
              simp at h

theorem buildRoutes_static_free (mods : List Module) (hwf : WFRegistry mods) :
    ∀ (specs : List (String × RouteData)) (i : Nat) (acc : RouteTable),
      (∀ nr ∈ acc, RouteStaticFree nr.2) →
      ∀ nr ∈ (buildRoutes mods specs i acc).1, RouteStaticFree nr.2 := by
  intro specs
  induction specs with
  | nil => intro i acc hacc; exact hacc
  | cons p rest ih =>
    intro i acc hacc nr hnr
    obtain ⟨name, data⟩ := p
    rw [buildRoutes_cons] at hnr
    by_cases h1 : name = ""
    · rw [if_pos h1] at hnr
      exact hacc nr hnr
    · rw [if_neg h1] at hnr
      by_cases h2 : data.paths.isEmpty
      · rw [if_pos h2] at hnr
        exact hacc nr hnr
      · rw [if_neg h2] at hnr
        cases hc : compilePaths mods name data.paths 0 [] [] with
        | error e =>
          simp only [hc] at hnr
          exact hacc nr hnr
        | ok v =>
          obtain ⟨steps, prms, ra⟩ := v
          simp only [hc] at hnr
          refine ih (i + 1) _ ?_ nr hnr
          intro nr' hnr'
          rcases mem_setKey _ _ _ nr' hnr' with hmem | heq
          · exact hacc nr' hmem
          · rw [heq]
            obtain ⟨d1, d2, d3, d4⟩ :=
              compilePaths_ok_inv mods hwf name data.paths 0 [] [] steps prms ra hc
            intro pp hpp st hst kv hkv
            have hraf : strLower kv.1 ∈ ra :=
              d4 (fun s hs => absurd hs (List.not_mem_nil s)) st hst kv hkv
            exact removeRouteArgs_removes ra prms (d1 List.Pairwise.nil)
              (strLower kv.1) hraf pp hpp

/-! ### C1 -/

/-- C1: the static-override invariant. For every route compiled by
`App.init` against a well-formed registry (each command's parameter
dictionary binds a schema under its own name, case-insensitively), no
aggregated parameter shares a lowercased name with any static-argument key
of any path step: the collected static keys are removed from the parameter
list before the route is stored. -/
theorem init_static_override_invariant (mods : List Module)
    (specs : List (String × RouteData)) (prev : RouteTable)
    (hwf : WFRegistry mods)
    (r : String) (R : Route) (hr : lookupKey (appInit prev mods specs).1 r = some R)
    (p : Param) (hp : p ∈ R.parameters)
    (st : Step) (hst : st ∈ R.paths)
    (k : String) (v : Value) (hkv : (k, v) ∈ st.args) :
    strLower p.name ≠ strLower k := by
  have hfree := buildRoutes_static_free mods hwf specs 0 []
    (fun nr h => absurd h (List.not_mem_nil nr))
    (r, R) (lookupKey_eq_some_mem _ _ _ hr)
  exact hfree p hp st hst (k, v) hkv

/-- Witness for C1 at a concrete registry: route `pm c --y 1` keeps the
declared parameter `x` and drops `y`; the kept parameter's name differs
from the static key. -/
theorem init_static_override_invariant_witness :
    strLower (Param.mk "x" "" none).name ≠ strLower "y" :=
  init_static_override_invariant [paramModule] paramSpecs []
    (by unfold WFRegistry; decide)
    "r" paramRoute (by rfl) (Param.mk "x" "" none) (by decide)
    paramStep (List.mem_singleton_self paramStep)
    "y" (Value.str "1") (by decide)

theorem buildRoutes_none_indep (mods : List Module) :
    ∀ (specs : List (String × RouteData)) (i : Nat) (acc : RouteTable) (i' : Nat)
      (acc' : RouteTable),
      (buildRoutes mods specs i acc).2 = none → (buildRoutes mods specs i' acc').2 = none := by
  intro specs
  induction specs with
  | nil => intro i acc i' acc' _; rfl
  | cons p rest ih =>
    intro i acc i' acc' h
    obtain ⟨name, data⟩ := p
    rw [buildRoutes_cons] at h
    rw [buildRoutes_cons]
    by_cases h1 : name = ""
    · rw [if_pos h1] at h; simp at h
    · rw [if_neg h1] at h
      rw [if_neg h1]
      by_cases h2 : data.paths.isEmpty
      · rw [if_pos h2] at h; simp at h
      · rw [if_neg h2] at h
        rw [if_neg h2]
        cases hc : compilePaths mods name data.paths 0 [] [] with
        | error e => simp only [hc] at h; simp at h
        | ok v =>
          obtain ⟨steps, prms, ra⟩ := v
          simp only [hc] at h ⊢
          exact ih _ _ _ _ h

theorem buildRoutes_append_fail (mods : List Module) (pre : List (String × RouteData)) :
    ∀ (i : Nat) (acc : RouteTable) (p : String × RouteData) (rest : List (String × RouteData)),
    (buildRoutes mods pre i acc).2 = none →
    routeFails mods p →
    (buildRoutes mods (pre ++ p :: rest) i acc).1 = (buildRoutes mods pre i acc).1 ∧
    (buildRoutes mods (pre ++ p :: rest) i acc).2.isSome := by
  induction pre with
  | nil =>
    intro i acc p rest _ hfail
    obtain ⟨name, data⟩ := p
    rw [List.nil_append, buildRoutes_cons, buildRoutes_nil]
    by_cases h1 : name = ""
    · rw [if_pos h1]; exact ⟨rfl, rfl⟩
    · rw [if_neg h1]
      by_cases h2 : data.paths.isEmpty
      · rw [if_pos h2]; exact ⟨rfl, rfl⟩
      · rw [if_neg h2]
        rcases hfail with h | h | ⟨e, he⟩
        · exact absurd h h1
        · exact absurd (by simp [show data.paths = [] from h]) h2
        · rw [he]
          exact ⟨rfl, rfl⟩
  | cons q pre' ih =>
    intro i acc p rest hnone hfail
    obtain ⟨name, data⟩ := q
    rw [buildRoutes_cons] at hnone
    rw [List.cons_append, buildRoutes_cons, buildRoutes_cons]
    by_cases h1 : name = ""
    · rw [if_pos h1] at hnone; simp at hnone
    · rw [if_neg h1] at hnone
      rw [if_neg h1, if_neg h1]
      by_cases h2 : data.paths.isEmpty
      · rw [if_pos h2] at hnone; simp at hnone
      · rw [if_neg h2] at hnone
        rw [if_neg h2, if_neg h2]
        cases hc : compilePaths mods name data.paths 0 [] [] with
        | error e => simp only [hc] at hnone; simp at hnone
        | ok v =>
          obtain ⟨steps, prms, ra⟩ := v
          simp only [hc] at hnone ⊢
          exact ih _ _ p rest hnone hfail

/-! ### C4 -/

/-- C4 counterexample: with a previously effective table holding route
`old`, an init over `[good, bad]` (where `bad` names the unregistered
module `ghost`) throws, yet the table now holds the partially built result
`[good]`: the previous table is gone and a partial table is installed. -/
theorem init_not_all_or_nothing_counterexample :
    (appInit prevTable [okModule] failingSpecs).2.isSome = true ∧
    (appInit prevTable [okModule] failingSpecs).1.map Prod.fst = ["good"] ∧
    prevTable.map Prod.fst = ["old"] ∧
    (lookupKey (appInit prevTable [okModule] failingSpecs).1 "old").isSome = false ∧
    (lookupKey (appInit prevTable [okModule] failingSpecs).1 "good").isSome = true := by
  refine ⟨by decide, by decide, by decide, by decide, by decide⟩

/-- C4 as amended: compilation is not all-or-nothing. `App.init` clears
the effective route table before compiling and installs each compiled
route as it goes, so a failure leaves installed exactly the routes that
preceded the failing one, and the previously effective table never
remains in effect (the result is independent of it). -/
theorem init_partial_table_on_failure (prev prev2 : RouteTable) (mods : List Module)
    (pre : List (String × RouteData)) (p : String × RouteData)
    (rest : List (String × RouteData))
    (hpre : (buildRoutes mods pre 0 []).2 = none)
    (hfail : routeFails mods p) :
    (appInit prev mods (pre ++ p :: rest)).1 = (appInit prev mods pre).1 ∧
    (appInit prev mods (pre ++ p :: rest)).2.isSome ∧
    appInit prev mods (pre ++ p :: rest) = appInit prev2 mods (pre ++ p :: rest) := by
  have h := buildRoutes_append_fail mods pre 0 [] p rest hpre hfail
  exact ⟨h.1, h.2, rfl⟩

/-- Witness for the amended C4 at the concrete failing spec mapping. -/
theorem init_partial_table_on_failure_witness :
    (appInit prevTable [okModule] failingSpecs).1 =
      (appInit prevTable [okModule] [("good", { paths := ["m ping"] })]).1 ∧
    (appInit prevTable [okModule] failingSpecs).2.isSome ∧
    appInit prevTable [okModule] failingSpecs = appInit [] [okModule] failingSpecs := by
  have h := init_partial_table_on_failure prevTable [] [okModule]
    [("good", { paths := ["m ping"] })] ("bad", { paths := ["ghost ping"] }) []
    (by decide)
    (Or.inr (Or.inr ⟨jsError "module with name 'ghost' does not exist", by rfl⟩))
  exact h

/-! ### C8 -/

/-- C8 (code bug): a path whose command token is genuinely missing (path
string `m` with no second token) makes compilation fail with the runtime
TypeError from calling `toLowerCase` on `undefined` — not with the
`missing command` configuration error the code's own (unreachable for this
case) check intends; the check only fires for an empty-string second token
(trailing space), and a present-but-unknown command does produce the
intended `invalid command` error. -/
theorem compile_missing_command_token_typeerror :
    (buildRoutes [okModule] [("r", { paths := ["m"] })] 0 []).2 =
      some (jsTypeError "Cannot read properties of undefined (reading toLowerCase)") ∧
    (buildRoutes [okModule] [("r3", { paths := ["m "] })] 0 []).2 =
      some (jsError "missing command of route 'r3' at path index '0'") ∧
    (buildRoutes [okModule] [("r2", { paths := ["m nope"] })] 0 []).2 =
      some (jsError "invalid command 'nope' of route 'r2' at path index '0'") := by
  refine ⟨by decide, by decide, by decide⟩

theorem stepBag_zero (d : Step) (rest : List Step) (bag : AList) :
    stepBag (d :: rest) bag 0 = assign bag d.args := rfl

theorem stepBag_succ (d : Step) (rest : List Step) (bag : AList) (j : Nat) :
    stepBag (d :: rest) bag (j + 1) = stepBag rest (assign bag d.args) j := rfl

theorem runSteps_cons_shape (bc : Bool) (d : Step) (rest : List Step) (bag : AList)
    (res : Response) :
    (∃ X, runSteps bc (d :: rest) bag res [] =
        ([Call.mk d.module.name d.command (assign bag d.args)], X)) ∨
    (∃ res', runSteps bc (d :: rest) bag res [] =
        (Call.mk d.module.name d.command (assign bag d.args) ::
          (runSteps bc rest (assign bag d.args) res' []).1,
         (runSteps bc rest (assign bag d.args) res' []).2)) := by
  rw [runSteps_cons]
  cases hx : d.module.exec d.command (assign bag d.args) with
  | error e => exact Or.inl ⟨.error e, by simp⟩
  | ok o =>
    cases o with
    | none =>
      refine Or.inr ⟨res, ?_⟩
      rw [runSteps_trace_append]
      simp
    | some r =>
      cases hcode : (r.code == 200 || r.code == 204) with
      | false =>
        simp only [hcode, Bool.false_eq_true, if_false]
        exact Or.inl ⟨.ok r, by simp⟩
      | true =>
        simp only [hcode, if_true]
        cases bc with
        | false => exact Or.inl ⟨.ok r, by simp⟩
        | true =>
          refine Or.inr ⟨r, ?_⟩
          rw [runSteps_trace_append]
          simp

theorem runSteps_calls_shape (bc : Bool) (steps : List Step) (bag : AList) (res : Response) :
    (runSteps bc steps bag res []).1.length ≤ steps.length ∧
    ∀ (j : Nat) (hj : j < (runSteps bc steps bag res []).1.length)
      (hs : j < steps.length),
      (runSteps bc steps bag res []).1.get ⟨j, hj⟩ =
        Call.mk (steps.get ⟨j, hs⟩).module.name (steps.get ⟨j, hs⟩).command
          (stepBag steps bag j) := by
  induction steps generalizing bag res with
  | nil =>
    exact ⟨Nat.le_refl _, fun j hj _ => absurd hj (Nat.not_lt_zero j)⟩
  | cons d rest ih =>
    rcases runSteps_cons_shape bc d rest bag res with ⟨X, heq⟩ | ⟨res', heq⟩
    · rw [heq]
      refine ⟨by simp, ?_⟩
      intro j hj hs
      cases j with
      | zero => rfl
      | succ n => simp at hj
    · rw [heq]
      obtain ⟨ih1, ih2⟩ := ih (assign bag d.args) res'
      constructor
      · simpa using Nat.succ_le_succ ih1
      · intro j hj hs
        cases j with
        | zero => rfl
        | succ n =>
          have hj0 : n + 1 <
              (runSteps bc rest (assign bag d.args) res' []).1.length + 1 := by
            simpa using hj
          exact ih2 n (Nat.lt_of_succ_lt_succ hj0) (Nat.lt_of_succ_lt_succ hs)

theorem lookupKey_stepBag (steps : List Step) (bag : AList) (i j : Nat) (hij : i ≤ j)
    (hi : i < steps.length) (hs : j < steps.length) (k : String) (v : Value)
    (hkv : (k, v) ∈ (steps.get ⟨i, hi⟩).args)
    (hnd : ((steps.get ⟨i, hi⟩).args.map Prod.fst).Nodup) :
    (lookupKey (stepBag steps bag j) k).isSome = true ∧
    ((∀ (m : Nat) (hm : m < steps.length), i < m → m ≤ j →
        ∀ v', (k, v') ∉ (steps.get ⟨m, hm⟩).args) →
      lookupKey (stepBag steps bag j) k = some v) := by
  have htake : steps.take (i + 1) = steps.take i ++ [steps.get ⟨i, hi⟩] := by
    rw [List.take_succ, List.getElem?_eq_getElem hi]
    simp [List.get_eq_getElem]
  have hbagi : stepBag steps bag i =
      assign (((steps.take i).map Step.args).foldl assign bag) (steps.get ⟨i, hi⟩).args := by
    unfold stepBag
    rw [htake, List.map_append, List.foldl_append]
    rfl
  have hdecomp : stepBag steps bag j =
      (((steps.take (j + 1)).drop (i + 1)).map Step.args).foldl assign
        (stepBag steps bag i) := by
    unfold stepBag
    conv_lhs => rw [← List.take_append_drop (i + 1) (steps.take (j + 1))]
    rw [List.take_take, List.map_append, List.foldl_append]
    have hmin : (i + 1) ⊓ (j + 1) = i + 1 := by omega
    rw [hmin]
  have hmidx : ∀ st ∈ (steps.take (j + 1)).drop (i + 1),
      ∃ (m : Nat) (hm : m < steps.length), i < m ∧ m ≤ j ∧ st = steps.get ⟨m, hm⟩ := by
    intro st hst
    obtain ⟨q, hq, hqe⟩ := List.mem_iff_getElem.mp hst
    have hlt : (steps.take (j + 1)).length = j + 1 := by
      rw [List.length_take]
      omega
    have hq2 : q < j - i := by
      rw [List.length_drop, hlt] at hq
      omega
    have hm : i + 1 + q < steps.length := by omega
    refine ⟨i + 1 + q, hm, by omega, by omega, ?_⟩
    rw [← hqe, List.getElem_drop, List.getElem_take]
    simp [List.get_eq_getElem]
  constructor
  · rw [hdecomp]
    apply lookupKey_foldl_assign_isSome
    rw [hbagi]
    exact lookupKey_assign_mem_isSome _ _ _ _ hkv
  · intro hno
    rw [hdecomp, lookupKey_foldl_assign_not_mem, hbagi,
      lookupKey_assign_mem_nodup _ _ _ _ hnd hkv]
    intro d hd v' hv'
    obtain ⟨st, hst, rfl⟩ := List.mem_map.mp hd
    obtain ⟨m, hm, him, hjm, hste⟩ := hmidx st hst
    rw [hste] at hv'
    exact hno m hm him hjm v' hv'

/-! ### C10 -/

/-- C10: within one dispatch the static arguments accumulate in a single
shared bag: if step `j` is invoked, then for every earlier (or equal) step
`i`, every static key of step `i` is still present in the bag passed to
step `j`, and it still holds step `i`'s value unless some step between
`i+1` and `j` carries the same key (per-step static keys assumed unique, as
JS object literals are). -/
theorem execute_static_args_accumulate (app : AppModel) (route : String) (args : AList)
    (rd : Route)
    (h0 : route ≠ "") (h1 : lookupKey app.routes (strLower route) = some rd)
    (i j : Nat) (hij : i ≤ j)
    (hj : j < (appExecute app route args).calls.length)
    (hi : i < rd.paths.length) (hs : j < rd.paths.length)
    (k : String) (v : Value)
    (hkv : (k, v) ∈ (rd.paths.get ⟨i, hi⟩).args)
    (hnd : ((rd.paths.get ⟨i, hi⟩).args.map Prod.fst).Nodup) :
    (lookupKey ((appExecute app route args).calls.get ⟨j, hj⟩).args k).isSome = true ∧
    ((∀ (m : Nat) (hm : m < rd.paths.length), i < m → m ≤ j →
        ∀ v', (k, v') ∉ (rd.paths.get ⟨m, hm⟩).args) →
      lookupKey ((appExecute app route args).calls.get ⟨j, hj⟩).args k = some v) := by
  have hcalls := appExecute_calls_eq app route args rd h0 h1
  have hget := List.get_of_eq hcalls ⟨j, hj⟩
  have hj' : j < (runSteps rd.options.broadcast rd.paths
      (filterParams rd.parameters args) RESPONSE_OK []).1.length := by
    rw [← hcalls]
    exact hj
  have hshape := (runSteps_calls_shape rd.options.broadcast rd.paths
    (filterParams rd.parameters args) RESPONSE_OK).2 j hj' hs
  have hbag := lookupKey_stepBag rd.paths (filterParams rd.parameters args) i j hij hi hs
    k v hkv hnd
  rw [hget]
  have hsame : (runSteps rd.options.broadcast rd.paths
      (filterParams rd.parameters args) RESPONSE_OK []).1.get ⟨j, hj'⟩ =
      (runSteps rd.options.broadcast rd.paths
        (filterParams rd.parameters args) RESPONSE_OK []).1.get ⟨↑(⟨j, hj⟩ : Fin _), _⟩ :=
    rfl
  rw [← hsame, hshape]
  exact hbag

/-- Witness for C10: on the two-step route `accRoute` (statics `a=1` then
`b=2`), the bag passed to step 1 still holds step 0's static key `a` with
its value. -/
theorem execute_static_args_accumulate_witness :
    (lookupKey ((appExecute accApp "acc" []).calls.get ⟨1, by decide⟩).args "a").isSome
      = true ∧
    lookupKey ((appExecute accApp "acc" []).calls.get ⟨1, by decide⟩).args "a" =
      some (Value.str "1") := by
  have h := execute_static_args_accumulate accApp "acc" [] accRoute (by decide) (by rfl)
    0 1 (by decide) (by decide) (by decide) (by decide) "a" (Value.str "1")
    (by decide) (by decide)
  refine ⟨h.1, h.2 ?_⟩
  intro m hm h0m h1m v' hv'
  interval_cases m
  simp [accRoute] at hv'

/-! ### C2 -/

/-- C2 counterexample: on a compiled route whose single step carries the
static argument `--y 1` (and whose aggregated parameter list is therefore
empty), the raw key `y` — undeclared in `route.parameters` — is present in
the bag passed to the step's module, bound to the static value. -/
theorem execute_sanitization_counterexample :
    ((lookupKey staticTable "r").map Route.parameters) = some [] ∧
    (appExecute staticApp "r" [("y", Value.str "2")]).calls.map
      (fun c => lookupKey c.args "y") = [some (Value.str "1")] ∧
    (appExecute staticApp "r" [("y", Value.str "2")]).response = RESPONSE_OK := by
  refine ⟨by decide, by decide, by decide⟩

/-- C2 as amended: any key of the raw bag not declared in the aggregated
parameter list is either absent from the bag a step's module receives or
bound to a static value taken from the route's own path steps — never to
the caller's value; the parameter-list filter is the only channel by which
caller data reaches module execution. -/
theorem execute_undeclared_key_static_only (app : AppModel) (route : String) (args : AList)
    (rd : Route)
    (h0 : route ≠ "") (h1 : lookupKey app.routes (strLower route) = some rd)
    (c : Call) (hc : c ∈ (appExecute app route args).calls)
    (k : String) (hk : ∀ p ∈ rd.parameters, p.name ≠ k) :
    lookupKey c.args k = none ∨
      ∃ st ∈ rd.paths, ∃ v, (k, v) ∈ st.args ∧ lookupKey c.args k = some v := by
  rw [appExecute_calls_eq app route args rd h0 h1] at hc
  rcases runSteps_call_args _ _ _ _ _ _ hc with h | ⟨ds, hds, he⟩
  · cases h
  · rw [he]
    rcases lookupKey_foldl_assign_or ds (filterParams rd.parameters args) k with
      h2 | ⟨d, hd, v, hv, he2⟩
    · rw [h2, lookupKey_filterParams_undeclared _ _ _ hk]
      exact Or.inl rfl
    · obtain ⟨st, hst, hsa⟩ := hds d hd
      exact Or.inr ⟨st, hst, v, hsa ▸ hv, he2⟩

/-- Witness for the amended C2 at the concrete static-argument route. -/
theorem execute_undeclared_key_static_only_witness :
    lookupKey (Call.mk "m" "c" [("y", Value.str "1")]).args "y" = none ∨
      ∃ st ∈ staticRoute.paths, ∃ v, ("y", v) ∈ st.args ∧
        lookupKey (Call.mk "m" "c" [("y", Value.str "1")]).args "y" = some v :=
  execute_undeclared_key_static_only staticApp "r" [("y", Value.str "2")] staticRoute
    (by decide) (by rfl) (Call.mk "m" "c" [("y", Value.str "1")]) (by decide)
    "y" (by decide)

/-! ### C3 and C5 -/

/-- C3: on a broadcast route the dispatcher walks the steps in declared
order, continues past every step whose yielded result has code OK (200) or
NoContent (204), and the first step whose result carries any other code
stops the chain at once, its response returned verbatim; the trace records
exactly the prefix up to and including the erroring step, in order. -/
theorem execute_broadcast_error_stops (app : AppModel) (route : String) (args : AList)
    (rd : Route) (pre post : List Step) (e : Step) (re : Response)
    (h0 : route ≠ "")
    (h1 : lookupKey app.routes (strLower route) = some rd)
    (hbc : rd.options.broadcast = true)
    (hpaths : rd.paths = pre ++ e :: post)
    (hpre : ∀ s ∈ pre, ∃ r : Response,
      (∀ bag, s.module.exec s.command bag = .ok (some r)) ∧ (r.code = 200 ∨ r.code = 204))
    (he : ∀ bag, e.module.exec e.command bag = .ok (some re))
    (hre : re.code ≠ 200 ∧ re.code ≠ 204) :
    (appExecute app route args).response = re ∧
    (appExecute app route args).calls.map (fun c => (c.moduleName, c.command)) =
      (pre ++ [e]).map (fun s => (s.module.name, s.command)) := by
  obtain ⟨hrun2, hrun1⟩ := runSteps_broadcast_until_error pre e post re hpre he hre
    (filterParams rd.parameters args) RESPONSE_OK
  have happ : appExecute app route args =
      ⟨re, (runSteps true (pre ++ e :: post) (filterParams rd.parameters args)
        RESPONSE_OK []).1, []⟩ := by
    unfold appExecute
    rw [if_neg h0, h1]
    simp only [hbc, hpaths]
    rcases hp : runSteps true (pre ++ e :: post) (filterParams rd.parameters args)
      RESPONSE_OK [] with ⟨tr, ex⟩
    rw [hp] at hrun2
    simp only at hrun2 ⊢
    rw [hrun2]
  rw [happ]
  exact ⟨rfl, hrun1⟩

/-- Witness for C3: steps `[A→OK, B→OK, C→Error 400]` under broadcast run
in order and the dispatcher returns C's error response. -/
theorem execute_broadcast_error_stops_witness :
    (appExecute broadcastApp "r" []).response = ⟨400, "C"⟩ ∧
    (appExecute broadcastApp "r" []).calls.map (fun c => (c.moduleName, c.command)) =
      [("a", "ping"), ("b", "ping"), ("c", "ping")] := by
  have h := execute_broadcast_error_stops broadcastApp "r" [] broadcastRoute
    [stepOf (constModule "a" ⟨200, "A"⟩), stepOf (constModule "b" ⟨200, "B"⟩)] []
    (stepOf (constModule "c" ⟨400, "C"⟩)) ⟨400, "C"⟩
    (by decide) rfl rfl rfl
    (by
      intro s hs
      rcases List.mem_cons.mp hs with h1 | h1
      · exact ⟨⟨200, "A"⟩, fun bag => h1 ▸ rfl, Or.inl rfl⟩
      · rcases List.mem_cons.mp h1 with h2 | h2
        · exact ⟨⟨200, "B"⟩, fun bag => h2 ▸ rfl, Or.inl rfl⟩
        · cases h2)
    (fun bag => rfl) (by decide)
  exact ⟨h.1, by rw [h.2]; rfl⟩

/-- C5: on a non-broadcast route a step that yields no result (void) is
skipped without altering the running result, and the first step whose
result has code OK (200) or NoContent (204) is returned immediately; the
trace records exactly the void prefix and that step, so no further step is
invoked. -/
theorem execute_nonbroadcast_first_result (app : AppModel) (route : String) (args : AList)
    (rd : Route) (pre post : List Step) (s : Step) (r : Response)
    (h0 : route ≠ "")
    (h1 : lookupKey app.routes (strLower route) = some rd)
    (hbc : rd.options.broadcast = false)
    (hpaths : rd.paths = pre ++ s :: post)
    (hpre : ∀ p ∈ pre, ∀ bag, p.module.exec p.command bag = .ok none)
    (hs : ∀ bag, s.module.exec s.command bag = .ok (some r))
    (hr : r.code = 200 ∨ r.code = 204) :
    (appExecute app route args).response = r ∧
    (appExecute app route args).calls.map (fun c => (c.moduleName, c.command)) =
      (pre ++ [s]).map (fun p => (p.module.name, p.command)) := by
  obtain ⟨hrun2, hrun1⟩ := runSteps_nonbroadcast_first_result pre s post r hpre hs hr
    (filterParams rd.parameters args) RESPONSE_OK
  have happ : appExecute app route args =
      ⟨r, (runSteps false (pre ++ s :: post) (filterParams rd.parameters args)
        RESPONSE_OK []).1, []⟩ := by
    unfold appExecute
    rw [if_neg h0, h1]
    simp only [hbc, hpaths]
    rcases hp : runSteps false (pre ++ s :: post) (filterParams rd.parameters args)
      RESPONSE_OK [] with ⟨tr, ex⟩
    rw [hp] at hrun2
    simp only at hrun2 ⊢
    rw [hrun2]
  rw [happ]
  exact ⟨rfl, hrun1⟩

/-- Witness for C5: steps `[A→void, B→OK]` (with a further step behind
them) return B's OK result having invoked only A and B. -/
theorem execute_nonbroadcast_first_result_witness :
    (appExecute nonBroadcastApp "r" []).response = ⟨200, "B"⟩ ∧
    (appExecute nonBroadcastApp "r" []).calls.map (fun c => (c.moduleName, c.command)) =
      [("v", "ping"), ("b", "ping")] := by
  have h := execute_nonbroadcast_first_result nonBroadcastApp "r" [] nonBroadcastRoute
    [stepOf voidModule] [stepOf (constModule "x" ⟨500, "X"⟩)]
    (stepOf (constModule "b" ⟨200, "B"⟩)) ⟨200, "B"⟩
    (by decide) rfl rfl rfl
    (by
      intro p hp
      rcases List.mem_cons.mp hp with h1 | h1
      · exact fun bag => h1 ▸ rfl
      · cases h1)
    (fun bag => rfl) (Or.inl rfl)
  exact ⟨h.1, by rw [h.2]; rfl⟩

/-! ### C6 and C7 -/

/-- C6: any exception thrown during argument filtering or step execution is
caught inside `App.execute`: a thrown error whose constructor is `CoreError`
yields a Forbidden (403) response carrying its message, any other thrown
error yields an InternalServerError (500) response whose message is the
fixed string `#_something_went_wrong` independent of the thrown error, and
the original error is emitted on the `onError` channel. Non-propagation is
by construction: `appExecute` is total and always yields an outcome. -/
theorem execute_translates_thrown_errors (app : AppModel) (route : String) (args : AList)
    (rd : Route) (e : JsError) (tr : List Call)
    (h0 : route ≠ "")
    (h1 : lookupKey app.routes (strLower route) = some rd)
    (h2 : runSteps rd.options.broadcast rd.paths (filterParams rd.parameters args)
        RESPONSE_OK [] = (tr, .error e)) :
    (appExecute app route args).response =
      (if e.ctorName = "CoreError" then ErrorResponse 403 e.message
        else ErrorResponse 500 "#_something_went_wrong") ∧
    (appExecute app route args).errors = [e] ∧
    (e.ctorName ≠ "CoreError" →
      (appExecute app route args).response.data = "#_something_went_wrong") := by
  have happ : appExecute app route args =
      ⟨if e.ctorName == "CoreError" then ErrorResponse 403 e.message
        else ErrorResponse 500 "#_something_went_wrong", tr, [e]⟩ := by
    unfold appExecute
    rw [if_neg h0, h1]
    simp only [h2]
  rw [happ]
  refine ⟨?_, rfl, ?_⟩
  · by_cases hc : e.ctorName = "CoreError" <;> simp [hc]
  · intro hc
    simp [hc, ErrorResponse]

/-- Witness for C6 at a concrete throwing step. -/
theorem execute_translates_thrown_errors_witness :
    (appExecute throwApp "t" []).response = ErrorResponse 500 "#_something_went_wrong" ∧
    (appExecute throwApp "t" []).errors = [jsError "database on fire"] := by
  have h := execute_translates_thrown_errors throwApp "t" []
    { description := ""
      options := {}
      parameters := []
      paths := [{ module := throwModule, command := "ping", args := [] }] }
    (jsError "database on fire")
    [⟨"boom", "ping", []⟩]
    (by decide) (by rfl) (by rfl)
  refine ⟨?_, h.2.1⟩
  rw [h.1]
  rfl

/-- C7: for every nonempty route name whose lowercased form is not a key of
the compiled route table, `App.execute` returns the configured invalid-route
response (Forbidden `#_invalid_route` when debug is on, NoContent otherwise)
and invokes no module (the call trace is empty). The empty route name is the
separate self-description path, not a route lookup. -/
theorem execute_unknown_route (app : AppModel) (route : String) (args : AList)
    (h0 : route ≠ "")
    (h1 : lookupKey app.routes (strLower route) = none) :
    appExecute app route args = ⟨invalidRouteResponse app.debug, [], []⟩ ∧
    (app.debug = true → invalidRouteResponse app.debug = ErrorResponse 403 "#_invalid_route") ∧
    (app.debug = false → invalidRouteResponse app.debug = RESPONSE_NO_CONTENT) := by
  refine ⟨?_, ?_, ?_⟩
  · unfold appExecute
    rw [if_neg h0, h1]
  · intro hd; simp [invalidRouteResponse, hd]
  · intro hd; simp [invalidRouteResponse, hd]

/-- Witness for C7: an unknown route on a concrete app. -/
theorem execute_unknown_route_witness :
    appExecute throwApp "doesNotExist" [] =
      ⟨invalidRouteResponse false, [], []⟩ ∧
    invalidRouteResponse false = RESPONSE_NO_CONTENT := by
  have h := execute_unknown_route throwApp "doesNotExist" [] (by decide) (by rfl)
  exact ⟨h.1, h.2.2 rfl⟩

theorem find?_map_congr {α β : Type} (f : α → β) (q : β → Bool) :
    ∀ (l1 l2 : List α), l1.map f = l2.map f →
      (l1.find? (fun a => q (f a))).map f = (l2.find? (fun a => q (f a))).map f := by
  intro l1
  induction l1 with
  | nil =>
    intro l2 h
    cases l2 with
    | nil => rfl
    | cons b l2' => simp at h
  | cons a l1' ih =>
    intro l2 h
    cases l2 with
    | nil => simp at h
    | cons b l2' =>
      simp only [List.map_cons, List.cons.injEq] at h
      obtain ⟨hab, hrest⟩ := h
      cases hq : q (f b) with
      | true =>
        have hqa : q (f a) = true := by rw [hab]; exact hq
        rw [List.find?_cons_of_pos (p := fun x => q (f x)) _ hqa,
          List.find?_cons_of_pos (p := fun x => q (f x)) _ hq]
        simp [hab]
      | false =>
        have hqa : ¬(q (f a) = true) := by rw [hab]; simp [hq]
        rw [List.find?_cons_of_neg (p := fun x => q (f x)) _ hqa,
          List.find?_cons_of_neg (p := fun x => q (f x)) _ (by simp [hq])]
        exact ih l2' hrest

theorem has_congr (m1 m2 : Module) (h : m1.toJSON = m2.toJSON) (c : String) :
    m1.has c = m2.has c := by
  have hc : m1.commands = m2.commands := congrArg ModuleMeta.commands h
  simp [Module.has, hc]

theorem compilePaths_congr (mods1 mods2 : List Module)
    (h : mods1.map Module.toJSON = mods2.map Module.toJSON) (name : String) :
    ∀ (paths : List String) (pidx : Nat) (params : List Param) (routeArgs : List String),
      (compilePaths mods1 name paths pidx params routeArgs).map
        (fun r => (r.1.map Step.shape, r.2)) =
      (compilePaths mods2 name paths pidx params routeArgs).map
        (fun r => (r.1.map Step.shape, r.2)) := by
  intro paths
  induction paths with
  | nil => intro pidx params routeArgs; rfl
  | cons path rest ih =>
    intro pidx params routeArgs
    simp only [compilePaths]
    by_cases hft : (splitSpace path).headD "" = ""
    · rw [if_pos hft, if_pos hft]
    · rw [if_neg hft, if_neg hft]
      have hfc : (mods1.find?
            (fun m => strLower m.name == strLower ((splitSpace path).headD ""))).map
            Module.toJSON =
          (mods2.find?
            (fun m => strLower m.name == strLower ((splitSpace path).headD ""))).map
            Module.toJSON :=
        find?_map_congr Module.toJSON
          (fun md => strLower md.name == strLower ((splitSpace path).headD ""))
          mods1 mods2 h
      cases hf1 : mods1.find?
          (fun m => strLower m.name == strLower ((splitSpace path).headD "")) with
      | none =>
        rw [hf1] at hfc
        have hf2 : mods2.find?
            (fun m => strLower m.name == strLower ((splitSpace path).headD "")) = none := by
          cases hf2x : mods2.find?
              (fun m => strLower m.name == strLower ((splitSpace path).headD "")) with
          | none => rfl
          | some m2 =>
            rw [hf2x] at hfc
            simp at hfc
        simp only [hf2]
      | some m1 =>
        rw [hf1] at hfc
        obtain ⟨m2, hf2, hm12⟩ : ∃ m2, mods2.find?
            (fun m => strLower m.name == strLower ((splitSpace path).headD "")) = some m2 ∧
            m1.toJSON = m2.toJSON := by
          cases hf2x : mods2.find?
              (fun m => strLower m.name == strLower ((splitSpace path).headD "")) with
          | none =>
            rw [hf2x] at hfc
            simp at hfc
          | some m2 =>
            rw [hf2x] at hfc
            simp only [Option.map_some', Option.some.injEq] at hfc
            exact ⟨m2, rfl, hfc⟩
        simp only [hf2]
        cases hsecond : (splitSpace path).get? 1 with
        | none => simp only [hsecond]
        | some second =>
          simp only [hsecond]
          by_cases hcmd : strLower second = ""
          · rw [if_pos hcmd, if_pos hcmd]
          · rw [if_neg hcmd, if_neg hcmd]
            have hhaseq := has_congr m1 m2 hm12 (strLower second)
            by_cases hhas : m1.has (strLower second)
            · rw [if_neg (by simp [hhas]), if_neg (by simp [← hhaseq, hhas])]
              rw [h]
              cases hmeta : (mods2.map Module.toJSON).find?
                  (fun d => strLower d.name == strLower ((splitSpace path).headD "")) with
              | none => simp only [hmeta]
              | some moduleData =>
                simp only [hmeta]
                cases hcmdd : moduleData.commands.find?
                    (fun t => strLower t.name == strLower second) with
                | none => simp only [hcmdd]
                | some commandData =>
                  simp only [hcmdd]
                  have ihh := ih (pidx + 1)
                    (addCommandParams params commandData.parameters)
                    (addRouteArgs routeArgs
                      (parseArgsFromString (joinSpace ((splitSpace path).drop 2))))
                  cases hr1 : compilePaths mods1 name rest (pidx + 1)
                      (addCommandParams params commandData.parameters)
                      (addRouteArgs routeArgs
                        (parseArgsFromString (joinSpace ((splitSpace path).drop 2)))) with
                  | error e1 =>
                    rw [hr1] at ihh
                    cases hr2 : compilePaths mods2 name rest (pidx + 1)
                        (addCommandParams params commandData.parameters)
                        (addRouteArgs routeArgs
                          (parseArgsFromString (joinSpace ((splitSpace path).drop 2)))) with
                    | error e2 =>
                      rw [hr2] at ihh
                      simp only [hr1, hr2]
                      simp only [Except.map] at ihh ⊢
                      exact ihh
                    | ok v2 =>
                      rw [hr2] at ihh
                      simp [Except.map] at ihh
                  | ok v1 =>
                    obtain ⟨steps1, pf1, raf1⟩ := v1
                    rw [hr1] at ihh
                    cases hr2 : compilePaths mods2 name rest (pidx + 1)
                        (addCommandParams params commandData.parameters)
                        (addRouteArgs routeArgs
                          (parseArgsFromString (joinSpace ((splitSpace path).drop 2)))) with
                    | error e2 =>
                      rw [hr2] at ihh
                      simp [Except.map] at ihh
                    | ok v2 =>
                      obtain ⟨steps2, pf2, raf2⟩ := v2
                      rw [hr2] at ihh
                      simp only [Except.map, Except.ok.injEq, Prod.mk.injEq] at ihh
                      obtain ⟨hsteps, hpf, hraf⟩ := ihh
                      simp only [hr1, hr2]
                      simp only [Except.map, Except.ok.injEq, Prod.mk.injEq,
                        List.map_cons, List.cons.injEq]
                      refine ⟨⟨?_, hsteps⟩, hpf, hraf⟩
                      simp [Step.shape, hm12]
            · rw [if_pos (by simp [hhas]), if_pos (by simp [← hhaseq, hhas])]

theorem tableShape_setKey (t : RouteTable) (k : String) (R : Route) :
    tableShape (setKey t k R) = setKey (tableShape t) k R.shape := by
  induction t with
  | nil => rfl
  | cons nr t' ih =>
    obtain ⟨n0, R0⟩ := nr
    simp only [setKey, tableShape, List.map_cons]
    by_cases hk : (n0 == k) = true
    · rw [if_pos hk, if_pos hk]
      simp [tableShape]
    · rw [if_neg hk, if_neg hk]
      simp only [List.map_cons]
      rw [show (List.map (fun nr => (nr.1, nr.2.shape)) (setKey t' k R)) =
        tableShape (setKey t' k R) from rfl, ih]
      rfl

theorem buildRoutes_shape_congr (mods1 mods2 : List Module)
    (h : mods1.map Module.toJSON = mods2.map Module.toJSON) :
    ∀ (specs : List (String × RouteData)) (i : Nat) (acc1 acc2 : RouteTable),
      tableShape acc1 = tableShape acc2 →
      tableShape (buildRoutes mods1 specs i acc1).1 =
        tableShape (buildRoutes mods2 specs i acc2).1 ∧
      (buildRoutes mods1 specs i acc1).2 = (buildRoutes mods2 specs i acc2).2 := by
  intro specs
  induction specs with
  | nil => intro i acc1 acc2 hacc; exact ⟨hacc, rfl⟩
  | cons p rest ih =>
    intro i acc1 acc2 hacc
    obtain ⟨name, data⟩ := p
    rw [buildRoutes_cons, buildRoutes_cons]
    by_cases h1 : name = ""
    · rw [if_pos h1, if_pos h1]
      exact ⟨hacc, rfl⟩
    · rw [if_neg h1, if_neg h1]
      by_cases h2 : data.paths.isEmpty
      · rw [if_pos h2, if_pos h2]
        exact ⟨hacc, rfl⟩
      · rw [if_neg h2, if_neg h2]
        have hcp := compilePaths_congr mods1 mods2 h name data.paths 0 [] []
        cases hc1 : compilePaths mods1 name data.paths 0 [] [] with
        | error e1 =>
          rw [hc1] at hcp
          cases hc2 : compilePaths mods2 name data.paths 0 [] [] with
          | error e2 =>
            rw [hc2] at hcp
            simp only [Except.map] at hcp
            simp only [hc1, hc2]
            obtain rfl : e1 = e2 := by
              injection hcp
            exact ⟨hacc, rfl⟩
          | ok v2 =>
            rw [hc2] at hcp
            simp [Except.map] at hcp
        | ok v1 =>
          obtain ⟨steps1, pf1, raf1⟩ := v1
          rw [hc1] at hcp
          cases hc2 : compilePaths mods2 name data.paths 0 [] [] with
          | error e2 =>
            rw [hc2] at hcp
            simp [Except.map] at hcp
          | ok v2 =>
            obtain ⟨steps2, pf2, raf2⟩ := v2
            rw [hc2] at hcp
            simp only [Except.map, Except.ok.injEq, Prod.mk.injEq] at hcp
            obtain ⟨hsteps, hpf, hraf⟩ := hcp
            simp only [hc1, hc2]
            apply ih
            rw [tableShape_setKey, tableShape_setKey, hacc]
            have hshape : Route.shape
                { description := data.description.getD ""
                  options := data.options.getD {}
                  parameters := removeRouteArgs pf1 raf1
                  paths := steps1 } = Route.shape
                { description := data.description.getD ""
                  options := data.options.getD {}
                  parameters := removeRouteArgs pf2 raf2
                  paths := steps2 } := by
              simp only [Route.shape, hpf, hraf, hsteps]
            rw [hshape]

/-! ### C9 -/

/-- C9: compilation is deterministic and depends only on the registry's
metadata snapshot. Compiling the same route-spec mapping against two
registries with identical snapshots (same module names, command tables and
parameter schemas — `toJSON` pointwise equal), whatever the previous table
was, produces structurally identical route tables: same route names in the
same order, same descriptions, options and parameter lists in order, and
the same path steps (module snapshot, command, static args); the thrown
error, if any, is also identical. Idempotence is the special case of
compiling twice with the same registry. -/
theorem init_deterministic (mods1 mods2 : List Module) (prev1 prev2 : RouteTable)
    (specs : List (String × RouteData))
    (h : mods1.map Module.toJSON = mods2.map Module.toJSON) :
    tableShape (appInit prev1 mods1 specs).1 = tableShape (appInit prev2 mods2 specs).1 ∧
    (appInit prev1 mods1 specs).2 = (appInit prev2 mods2 specs).2 :=
  buildRoutes_shape_congr mods1 mods2 h specs 0 [] [] rfl

/-- Witness for C9: two registries with the same snapshot but different
execute behavior compile `staticSpecs` to identical table shapes. -/
theorem init_deterministic_witness :
    tableShape (appInit [] [okModule] staticSpecs).1 =
      tableShape (appInit [] [okModule2] staticSpecs).1 ∧
    (appInit [] [okModule] staticSpecs).2 = (appInit [] [okModule2] staticSpecs).2 :=
  init_deterministic [okModule] [okModule2] [] [] staticSpecs (by decide)

end AppJS
